import Mathlib

/-!
Shallow embedding of the Illarion server world-map registry (`WorldMap.cpp`)
and proofs about its operations.

The `Map` class itself is an external collaborator of the surfaced code
(`Map.hpp` is not part of the sources); its contract (immutable rectangular
bounds at one z-level, an intersection test, a cell accessor) is modelled
from the spec where noted.  The `WorldMap` operations are translated from
`WorldMap.cpp` directly.

Modelling conventions:
- `shared_ptr<Map>` (`map_t`) becomes `Option Map`; the pointer value used by
  `operator==` is modelled by the `ref` field.
- the `std::map<position, map_t>` point index becomes a function
  `Position → Option Map` updated cell by cell, as the insertion loop does.
- wall-clock time in `allMapsAged` is abstracted by a `budget : Nat`, the
  number of loop iterations the 10 ms check permits before it first fails
  (monotone time makes the permitted iterations a prefix of the loop).
  The list of indices whose `age()` hook ran is returned as instrumentation.
-/

/-- World coordinate triple, from `position` (x, y, z). -/
structure Position where
  x : Int
  y : Int
  z : Int
deriving DecidableEq

/-- Two-dimensional coordinate, from `MAP_POSITION`. -/
structure MAP_POSITION where
  x : Int
  y : Int
deriving DecidableEq

/-- An exportable item on a field: id, quality and key-value data pairs
(strings as character lists). Modelled from the spec: part of the external
`Map`/`Field` contract. -/
structure Item where
  itemId : Int
  quality : Int
  data : List (List Char × List Char)

/-- Per-cell content snapshot (the source's `Field`, renamed to avoid the
algebraic `Field` class). Modelled from the spec: tile code, music id,
warp flag with target, exportable items (external contract). -/
structure CField where
  tileCode : Int
  musicId : Int
  warp : Option Position
  exportItems : List Item

/-- External `Map` entity: immutable rectangular bounds at a fixed z-level,
plus a cell accessor. `ref` models the `shared_ptr` pointer value, so that
`it == newMap` (pointer identity) is `ref` equality.  `getCField` models
`GetCFieldAt` (a `bool` return plus out-parameter becomes `Option Field`). -/
structure Map where
  ref : Nat
  Z_Level : Int
  Min_X : Int
  Max_X : Int
  Min_Y : Int
  Max_Y : Int
  Width : Nat
  Height : Nat
  getCField : Int → Int → Option CField

/-- Modelled from the spec: `Map::intersects` (external contract, §6): a
bounds-intersection test against an arbitrary axis-aligned rectangle
`[ul, dr]` at a given z-level. -/
def Map.intersects (m : Map) (ul dr : MAP_POSITION) (z : Int) : Bool :=
  m.Z_Level == z && decide (m.Min_X ≤ dr.x) && decide (ul.x ≤ m.Max_X) &&
    decide (m.Min_Y ≤ dr.y) && decide (ul.y ≤ m.Max_Y)

/-- The registry state: the ordered sequence `maps`, the point index
`world_map`, and the aging cursor `ageIndex`. -/
structure WorldMap where
  maps : List Map
  world_map : Position → Option Map
  ageIndex : Nat

/-- The freshly constructed registry: empty sequence, empty index, cursor 0. -/
def WorldMap.empty : WorldMap :=
  { maps := [], world_map := fun _ => none, ageIndex := 0 }

/-- `WorldMap::clear`: empties `maps` and `world_map` (the cursor member is
not touched by `clear`). -/
def WorldMap.clear (wm : WorldMap) : WorldMap :=
  { wm with maps := [], world_map := fun _ => none }

/-- `WorldMap::mapInRangeOf`: any registered map intersecting the rectangle
`[upperleft, upperleft + (dx-1, dy-1)]` at `upperleft.z`. -/
def WorldMap.mapInRangeOf (wm : WorldMap) (upperleft : Position) (dx dy : Nat) : Bool :=
  let downright : MAP_POSITION := ⟨upperleft.x + dx - 1, upperleft.y + dy - 1⟩
  wm.maps.any fun map => map.intersects ⟨upperleft.x, upperleft.y⟩ downright upperleft.z

/-- `WorldMap::findAllMapsInRangeOf`: collects, in registration order, every
map intersecting the rectangle built from `pos` and the four margins. -/
def WorldMap.findAllMapsInRangeOf (wm : WorldMap) (rnorth rsouth reast rwest : Int)
    (pos : Position) : List Map :=
  let upperleft : MAP_POSITION := ⟨pos.x - rwest, pos.y - rnorth⟩
  let downright : MAP_POSITION := ⟨pos.x + reast, pos.y + rsouth⟩
  wm.maps.filter fun map => map.intersects upperleft downright pos.z

/-- `WorldMap::findMapForPos`: dictionary lookup; `world_map.at` throwing
`out_of_range` is caught and turned into the empty `map_t`, i.e. `none`. -/
def WorldMap.findMapForPos (wm : WorldMap) (pos : Position) : Option Map :=
  wm.world_map pos

/-- The inclusive integer range `[lo, hi]` as a list (empty when `hi < lo`). -/
def intRangeIncl (lo hi : Int) : List Int :=
  (List.range (hi + 1 - lo).toNat).map fun (i : Nat) => lo + (i : Int)

/-- The cells written by the insertion loop: `x` from `Min_X` to `Max_X`,
`y` from `Min_Y` to `Max_Y`, at `Z_Level`. -/
def Map.cells (m : Map) : List Position :=
  (intRangeIncl m.Min_X m.Max_X).flatMap fun x =>
    (intRangeIncl m.Min_Y m.Max_Y).map fun y => ⟨x, y, m.Z_Level⟩

/-- One `world_map[p] = newMap` store. -/
def writeCell (f : Position → Option Map) (p : Position) (m : Map) :
    Position → Option Map :=
  fun q => if q = p then some m else f q

/-- `WorldMap::InsertMap`: null check, identity scan over `maps`
(`shared_ptr` equality, i.e. `ref` equality), append, then write every cell
of the rectangle into `world_map`. -/
def WorldMap.InsertMap (wm : WorldMap) (newMap : Option Map) : Bool × WorldMap :=
  match newMap with
  | none => (false, wm)
  | some m =>
    if wm.maps.any fun it => it.ref == m.ref then (false, wm)
    else
      (true, { wm with
        maps := wm.maps ++ [m],
        world_map := m.cells.foldl (fun f p => writeCell f p m) wm.world_map })

/-- `WorldMap::allMapsAged`: ages maps from the cursor while the time budget
permits; returns false (cursor kept) when the end is not reached, true
(cursor reset to 0) when it is.  `budget` abstracts the 10 ms check as the
number of loop iterations the clock allows; the third component is the
instrumentation log of the indices whose `age()` hook ran, in order. -/
def WorldMap.allMapsAged (wm : WorldMap) (budget : Nat) : Bool × WorldMap × List Nat :=
  let n := wm.maps.length
  let steps := min budget (n - wm.ageIndex)
  let aged := List.range' wm.ageIndex steps
  if wm.ageIndex + steps < n then
    (false, { wm with ageIndex := wm.ageIndex + steps }, aged)
  else
    (true, { wm with ageIndex := 0 }, aged)

/-- A sequence of `allMapsAged` calls with the given per-call budgets,
stopping at the first call that returns true (or when the budget list is
exhausted, returning false).  Accumulates the instrumentation logs. -/
def WorldMap.runSweep (wm : WorldMap) (budgets : List Nat) : Bool × WorldMap × List Nat :=
  match budgets with
  | [] => (false, wm, [])
  | b :: bs =>
    match wm.allMapsAged b with
    | (true, wm2, aged) => (true, wm2, aged)
    | (false, wm2, aged) =>
      let r := wm2.runSweep bs
      (r.1, r.2.1, aged ++ r.2.2)

/-- Membership in the inclusive integer range. -/
theorem mem_intRangeIncl {lo hi x : Int} :
    x ∈ intRangeIncl lo hi ↔ lo ≤ x ∧ x ≤ hi := by
  unfold intRangeIncl
  simp only [List.mem_map, List.mem_range]
  constructor
  · rintro ⟨i, hlt, rfl⟩
    omega
  · rintro ⟨h1, h2⟩
    exact ⟨(x - lo).toNat, by omega, by omega⟩

/-- Membership in a map's cell list is exactly being inside its bounds at
its z-level. -/
theorem mem_cells {m : Map} {p : Position} :
    p ∈ m.cells ↔
      m.Min_X ≤ p.x ∧ p.x ≤ m.Max_X ∧ m.Min_Y ≤ p.y ∧ p.y ≤ m.Max_Y ∧
        p.z = m.Z_Level := by
  obtain ⟨px, py, pz⟩ := p
  unfold Map.cells
  simp only [List.mem_flatMap, List.mem_map, mem_intRangeIncl, Position.mk.injEq]
  constructor
  · rintro ⟨x, hx, y, hy, rfl, rfl, rfl⟩
    exact ⟨hx.1, hx.2, hy.1, hy.2, rfl⟩
  · rintro ⟨h1, h2, h3, h4, rfl⟩
    exact ⟨px, ⟨h1, h2⟩, py, ⟨h3, h4⟩, rfl, rfl, rfl⟩

/-- Evaluating the fold of cell stores: a stored cell reads back the new map,
any other point falls through to the previous index. -/
theorem foldl_writeCell (cells : List Position) (f : Position → Option Map)
    (m : Map) (p : Position) :
    (cells.foldl (fun g q => writeCell g q m) f) p =
      if p ∈ cells then some m else f p := by
  induction cells generalizing f with
  | nil => simp
  | cons c cs ih =>
    simp only [List.foldl_cons, ih, List.mem_cons]
    by_cases hcs : p ∈ cs
    · simp [hcs]
    · by_cases hc : p = c <;> simp [writeCell, hc, hcs]

/-- On a successful insert (identity scan negative), the point index maps a
position to the new map exactly when it lies in the new map's rectangle at
its z-level, and is otherwise unchanged. -/
theorem InsertMap_world_map (wm : WorldMap) (m : Map)
    (h : (wm.maps.any fun it => it.ref == m.ref) = false) (p : Position) :
    ((wm.InsertMap (some m)).2).world_map p =
      if m.Min_X ≤ p.x ∧ p.x ≤ m.Max_X ∧ m.Min_Y ≤ p.y ∧ p.y ≤ m.Max_Y ∧
          p.z = m.Z_Level
      then some m else wm.world_map p := by
  simp only [WorldMap.InsertMap, h, Bool.false_eq_true, if_false]
  rw [foldl_writeCell]
  simp only [mem_cells]

/-- On a successful insert, the sequence gains the new map at the end. -/
theorem InsertMap_maps (wm : WorldMap) (m : Map)
    (h : (wm.maps.any fun it => it.ref == m.ref) = false) :
    ((wm.InsertMap (some m)).2).maps = wm.maps ++ [m] := by
  simp [WorldMap.InsertMap, h]

/-- A concrete 3×2 map at origin (0,0), z-level 0, used as a test input. -/
def mapA : Map :=
  { ref := 1, Z_Level := 0, Min_X := 0, Max_X := 2, Min_Y := 0, Max_Y := 1,
    Width := 3, Height := 2, getCField := fun _ _ => none }

/-- C10: inserting a null map reference returns false and leaves the
registry (sequence, point index and cursor) completely unchanged. -/
theorem insertMap_null (wm : WorldMap) : wm.InsertMap none = (false, wm) := rfl

/-- C3: if the exact same `Map` reference is already present in the
sequence, insert returns false and performs no mutation at all. -/
theorem insertMap_duplicate (wm : WorldMap) (m : Map) (h : m ∈ wm.maps) :
    wm.InsertMap (some m) = (false, wm) := by
  have hany : (wm.maps.any fun it => it.ref == m.ref) = true :=
    List.any_eq_true.2 ⟨m, h, by simp⟩
  simp [WorldMap.InsertMap, hany]

/-- C3 witness: inserting `mapA` twice; the second call returns false with
the state unchanged. -/
theorem insertMap_duplicate_witness :
    ((WorldMap.empty.InsertMap (some mapA)).2).InsertMap (some mapA) =
      (false, (WorldMap.empty.InsertMap (some mapA)).2) :=
  insertMap_duplicate _ mapA (by simp [WorldMap.InsertMap, WorldMap.empty])

/-- C4: after inserting a single map into the empty registry, every
in-bounds position at the map's z-level looks up to that map, and the
out-of-bounds position `(Min_X − 1, Min_Y, z)` yields the absent result. -/
theorem single_insert_lookup (M : Map) :
    (∀ x y : Int, M.Min_X ≤ x → x ≤ M.Max_X → M.Min_Y ≤ y → y ≤ M.Max_Y →
        ((WorldMap.empty.InsertMap (some M)).2).findMapForPos ⟨x, y, M.Z_Level⟩ =
          some M) ∧
      ((WorldMap.empty.InsertMap (some M)).2).findMapForPos
          ⟨M.Min_X - 1, M.Min_Y, M.Z_Level⟩ = none := by
  constructor
  · intro x y h1 h2 h3 h4
    rw [WorldMap.findMapForPos, InsertMap_world_map WorldMap.empty M rfl]
    exact if_pos ⟨h1, h2, h3, h4, rfl⟩
  · rw [WorldMap.findMapForPos, InsertMap_world_map WorldMap.empty M rfl]
    rw [if_neg]
    · rfl
    · rintro ⟨hc, -⟩
      change M.Min_X ≤ M.Min_X - 1 at hc
      omega

/-- C4 witness: the property evaluated on the concrete map `mapA` at the
in-bounds position (1,1,0) and at the out-of-bounds position (−1,0,0). -/
theorem single_insert_lookup_witness :
    ((WorldMap.empty.InsertMap (some mapA)).2).findMapForPos ⟨1, 1, 0⟩ = some mapA ∧
      ((WorldMap.empty.InsertMap (some mapA)).2).findMapForPos ⟨-1, 0, 0⟩ = none :=
  ⟨(single_insert_lookup mapA).1 1 1 (by decide) (by decide) (by decide) (by decide),
    (single_insert_lookup mapA).2⟩

/-- A map's bounds cover a position (the position lies in the rectangle at
the map's z-level). -/
def Map.covers (m : Map) (p : Position) : Prop :=
  m.Min_X ≤ p.x ∧ p.x ≤ m.Max_X ∧ m.Min_Y ≤ p.y ∧ p.y ≤ m.Max_Y ∧ p.z = m.Z_Level

/-- The registry invariant: every in-bounds cell of every registered map has
a point-index entry pointing to some registered map that covers that cell. -/
def WorldMap.Inv (wm : WorldMap) : Prop :=
  ∀ M ∈ wm.maps, ∀ x y : Int,
    M.Min_X ≤ x → x ≤ M.Max_X → M.Min_Y ≤ y → y ≤ M.Max_Y →
    ∃ M', wm.world_map ⟨x, y, M.Z_Level⟩ = some M' ∧ M' ∈ wm.maps ∧
      M'.covers ⟨x, y, M.Z_Level⟩

/-- Registry states reachable through the public operations. -/
inductive Reachable : WorldMap → Prop
  | empty : Reachable WorldMap.empty
  | insert (wm : WorldMap) (m : Option Map) : Reachable wm → Reachable (wm.InsertMap m).2
  | clear (wm : WorldMap) : Reachable wm → Reachable wm.clear
  | aged (wm : WorldMap) (b : Nat) : Reachable wm → Reachable (wm.allMapsAged b).2.1

/-- A registry with an empty sequence satisfies the invariant vacuously. -/
theorem inv_of_maps_nil {wm : WorldMap} (h : wm.maps = []) : wm.Inv := by
  intro M hM
  rw [h] at hM
  exact absurd hM (List.not_mem_nil M)

/-- Insertion preserves the registry invariant: the new map's cells are
overwritten to point at it (last-write-wins) and all other cells keep their
previous, still-registered covering map. -/
theorem insert_preserves_inv {wm : WorldMap} (hinv : wm.Inv) (m : Option Map) :
    (wm.InsertMap m).2.Inv := by
  cases m with
  | none => exact hinv
  | some m =>
    by_cases hdup : (wm.maps.any fun it => it.ref == m.ref) = true
    · have hins : wm.InsertMap (some m) = (false, wm) := by
        simp [WorldMap.InsertMap, hdup]
      rw [hins]
      exact hinv
    · have hfalse : (wm.maps.any fun it => it.ref == m.ref) = false := by
        simpa using hdup
      intro M hM x y h1 h2 h3 h4
      rw [InsertMap_maps wm m hfalse] at hM
      have hw := InsertMap_world_map wm m hfalse ⟨x, y, M.Z_Level⟩
      by_cases hin : m.Min_X ≤ x ∧ x ≤ m.Max_X ∧ m.Min_Y ≤ y ∧ y ≤ m.Max_Y ∧
          M.Z_Level = m.Z_Level
      · refine ⟨m, ?_, ?_, ?_⟩
        · rw [hw, if_pos hin]
        · rw [InsertMap_maps wm m hfalse]
          exact List.mem_append_right _ (List.mem_singleton_self m)
        · exact ⟨hin.1, hin.2.1, hin.2.2.1, hin.2.2.2.1, hin.2.2.2.2⟩
      · rcases List.mem_append.1 hM with hM' | hM'
        · obtain ⟨M', he, hmem, hcov⟩ := hinv M hM' x y h1 h2 h3 h4
          refine ⟨M', ?_, ?_, hcov⟩
          · rw [hw, if_neg hin]
            exact he
          · rw [InsertMap_maps wm m hfalse]
            exact List.mem_append_left _ hmem
        · rw [List.mem_singleton] at hM'
          subst hM'
          exact absurd ⟨h1, h2, h3, h4, rfl⟩ hin

/-- The aging sweep leaves the sequence and the point index untouched. -/
theorem allMapsAged_preserves_state (wm : WorldMap) (b : Nat) :
    (wm.allMapsAged b).2.1.maps = wm.maps ∧
      (wm.allMapsAged b).2.1.world_map = wm.world_map := by
  dsimp only [WorldMap.allMapsAged]
  split <;> exact ⟨rfl, rfl⟩

/-- C1: every reachable registry state satisfies the point-index invariant;
moreover the invariant is preserved by insert (last-write-wins on
overwritten cells) and trivially re-established by clear, which empties
both structures. -/
theorem reachable_registry_invariant (wm : WorldMap) :
    (Reachable wm → wm.Inv) ∧
      (wm.Inv → ∀ m, (wm.InsertMap m).2.Inv) ∧ wm.clear.Inv := by
  refine ⟨?_, fun hinv m => insert_preserves_inv hinv m, inv_of_maps_nil rfl⟩
  intro h
  induction h with
  | empty => exact inv_of_maps_nil rfl
  | clear wm' _ _ => exact inv_of_maps_nil rfl
  | insert wm' m _ ih => exact insert_preserves_inv ih m
  | aged wm' b _ ih =>
    obtain ⟨hm, hw⟩ := allMapsAged_preserves_state wm' b
    unfold WorldMap.Inv
    rw [hm, hw]
    exact ih

/-- C1 witness: the invariant holds at the concrete reachable state obtained
by inserting `mapA` into the empty registry. -/
theorem reachable_registry_invariant_witness :
    (WorldMap.empty.InsertMap (some mapA)).2.Inv :=
  (reachable_registry_invariant _).1 (Reachable.insert _ _ Reachable.empty)

/-- Evaluating one `allMapsAged` call whose budget stops before the end. -/
theorem allMapsAged_eq_of_lt {wm : WorldMap} {b : Nat}
    (hlt : wm.ageIndex + min b (wm.maps.length - wm.ageIndex) < wm.maps.length) :
    wm.allMapsAged b =
      (false,
        { wm with ageIndex := wm.ageIndex + min b (wm.maps.length - wm.ageIndex) },
        List.range' wm.ageIndex (min b (wm.maps.length - wm.ageIndex))) := by
  dsimp only [WorldMap.allMapsAged]
  rw [if_pos hlt]

/-- Evaluating one `allMapsAged` call that reaches the end of the sequence. -/
theorem allMapsAged_eq_of_ge {wm : WorldMap} {b : Nat}
    (hge : ¬wm.ageIndex + min b (wm.maps.length - wm.ageIndex) < wm.maps.length) :
    wm.allMapsAged b =
      (true, { wm with ageIndex := 0 },
        List.range' wm.ageIndex (min b (wm.maps.length - wm.ageIndex))) := by
  dsimp only [WorldMap.allMapsAged]
  rw [if_neg hge]

/-- If a run of `allMapsAged` calls ends with a call returning true, the
indices aged across the run are exactly the cursor position through the end
of the sequence, once each in order; the final state has cursor 0 and the
sequence unchanged. -/
theorem runSweep_complete (budgets : List Nat) (wm : WorldMap)
    (hle : wm.ageIndex ≤ wm.maps.length)
    (h : (wm.runSweep budgets).1 = true) :
    (wm.runSweep budgets).2.2 =
        List.range' wm.ageIndex (wm.maps.length - wm.ageIndex) ∧
      (wm.runSweep budgets).2.1.ageIndex = 0 ∧
      (wm.runSweep budgets).2.1.maps = wm.maps := by
  induction budgets generalizing wm with
  | nil => simp [WorldMap.runSweep] at h
  | cons b bs ih =>
    by_cases hlt :
        wm.ageIndex + min b (wm.maps.length - wm.ageIndex) < wm.maps.length
    · rw [WorldMap.runSweep, allMapsAged_eq_of_lt hlt] at h ⊢
      dsimp only at h ⊢
      set wm2 : WorldMap :=
        { wm with ageIndex := wm.ageIndex + min b (wm.maps.length - wm.ageIndex) }
        with hwm2
      have hle2 : wm2.ageIndex ≤ wm2.maps.length := le_of_lt hlt
      obtain ⟨hlog, hidx, hmaps⟩ := ih wm2 hle2 h
      refine ⟨?_, hidx, hmaps⟩
      rw [hlog]
      have happ := List.range'_append wm.ageIndex
        (min b (wm.maps.length - wm.ageIndex))
        (wm.maps.length - wm2.ageIndex) 1
      simp only [one_mul] at happ
      rw [happ]
      congr 1
      omega
    · rw [WorldMap.runSweep, allMapsAged_eq_of_ge hlt]
      have hsteps : min b (wm.maps.length - wm.ageIndex) =
          wm.maps.length - wm.ageIndex := by omega
      rw [hsteps]
      exact ⟨rfl, rfl, rfl⟩

/-- C2: starting a fresh sweep (cursor 0), any sequence of `allMapsAged`
calls whose last call returns true ages every registered map exactly once,
index 0 through N−1 in order, and leaves the cursor at 0 with the sequence
unchanged (so the next call begins a fresh sweep); moreover a single call
returns false iff its loop stops strictly before the end of the sequence,
in which case the cursor is left positioned to resume, and a call returning
true resets the cursor to 0. -/
theorem aging_sweep_spec (wm : WorldMap) (budgets : List Nat) (b : Nat) :
    (wm.ageIndex = 0 → (wm.runSweep budgets).1 = true →
      (wm.runSweep budgets).2.2 = List.range wm.maps.length ∧
        (wm.runSweep budgets).2.1.ageIndex = 0 ∧
        (wm.runSweep budgets).2.1.maps = wm.maps) ∧
      ((wm.allMapsAged b).1 = false ↔
        wm.ageIndex + min b (wm.maps.length - wm.ageIndex) < wm.maps.length) ∧
      ((wm.allMapsAged b).1 = false →
        (wm.allMapsAged b).2.1.ageIndex =
          wm.ageIndex + min b (wm.maps.length - wm.ageIndex)) ∧
      ((wm.allMapsAged b).1 = true → (wm.allMapsAged b).2.1.ageIndex = 0) := by
  refine ⟨?_, ?_, ?_, ?_⟩
  · intro h0 h
    have := runSweep_complete budgets wm (by omega) h
    rw [h0] at this
    simpa [List.range_eq_range'] using this
  · by_cases hlt :
        wm.ageIndex + min b (wm.maps.length - wm.ageIndex) < wm.maps.length
    · simp [allMapsAged_eq_of_lt hlt, hlt]
    · simp [allMapsAged_eq_of_ge hlt, hlt]
  · intro hf
    by_cases hlt :
        wm.ageIndex + min b (wm.maps.length - wm.ageIndex) < wm.maps.length
    · rw [allMapsAged_eq_of_lt hlt]
    · rw [allMapsAged_eq_of_ge hlt] at hf
      simp at hf
  · intro ht
    by_cases hlt :
        wm.ageIndex + min b (wm.maps.length - wm.ageIndex) < wm.maps.length
    · rw [allMapsAged_eq_of_lt hlt] at ht
      simp at ht
    · rw [allMapsAged_eq_of_ge hlt]

/-- A second concrete test map, disjoint from `mapA`, on z-level 0. -/
def mapB : Map :=
  { ref := 2, Z_Level := 0, Min_X := 5, Max_X := 6, Min_Y := 0, Max_Y := 0,
    Width := 2, Height := 1, getCField := fun _ _ => none }

/-- A third concrete test map, on z-level 1. -/
def mapC : Map :=
  { ref := 3, Z_Level := 1, Min_X := 0, Max_X := 0, Min_Y := 0, Max_Y := 0,
    Width := 1, Height := 1, getCField := fun _ _ => none }

/-- A concrete registry state holding three maps with the cursor at 0. -/
def wm3 : WorldMap :=
  { maps := [mapA, mapB, mapC], world_map := fun _ => none, ageIndex := 0 }

/-- C2 witness: on the three-map registry, budgets of 2 then 2 iterations
complete the sweep, aging indices 0, 1, 2 exactly once and resetting the
cursor. -/
theorem aging_sweep_spec_witness :
    (wm3.runSweep [2, 2]).2.2 = List.range wm3.maps.length ∧
      (wm3.runSweep [2, 2]).2.1.ageIndex = 0 ∧
      (wm3.runSweep [2, 2]).2.1.maps = wm3.maps :=
  (aging_sweep_spec wm3 [2, 2] 2).1 rfl (by decide)

/-- C5: `mapInRangeOf` on a rectangle is true exactly when
`findAllMapsInRangeOf`, called with margins describing the same rectangle
(upperLeft = center − (west, north), lowerRight = center + (east, south),
same z-level), returns a non-empty list. -/
theorem range_query_equiv (wm : WorldMap) (ul : Position) (dx dy : Nat)
    (rnorth rsouth reast rwest : Int) (pos : Position)
    (hz : pos.z = ul.z)
    (hwst : pos.x - rwest = ul.x) (hnrth : pos.y - rnorth = ul.y)
    (hest : pos.x + reast = ul.x + (dx : Int) - 1)
    (hsth : pos.y + rsouth = ul.y + (dy : Int) - 1) :
    wm.mapInRangeOf ul dx dy = true ↔
      wm.findAllMapsInRangeOf rnorth rsouth reast rwest pos ≠ [] := by
  dsimp only [WorldMap.mapInRangeOf, WorldMap.findAllMapsInRangeOf]
  simp only [hz, hwst, hnrth, hest, hsth]
  constructor
  · intro h hnil
    obtain ⟨m, hm, hp⟩ := List.any_eq_true.1 h
    have := List.filter_eq_nil_iff.1 hnil m hm
    exact this hp
  · intro hne
    obtain ⟨m, hm⟩ := List.exists_mem_of_ne_nil _ hne
    obtain ⟨hmm, hp⟩ := List.mem_filter.1 hm
    exact List.any_eq_true.2 ⟨m, hmm, hp⟩

/-- C5 witness: the equivalence evaluated on the three-map registry for the
2×2 rectangle with corner (0,0,0) and the margin form (north 0, south 1,
east 1, west 0) around center (0,0,0). -/
theorem range_query_equiv_witness :
    wm3.mapInRangeOf ⟨0, 0, 0⟩ 2 2 = true ↔
      wm3.findAllMapsInRangeOf 0 1 1 0 ⟨0, 0, 0⟩ ≠ [] :=
  range_query_equiv wm3 ⟨0, 0, 0⟩ 2 2 0 1 1 0 ⟨0, 0, 0⟩
    (by decide) (by decide) (by decide) (by decide) (by decide)

/-- `boost::algorithm::replace_all` specialised to a single-character
pattern, as the exporter uses it: every occurrence of `c` becomes `r`. -/
def replaceAllChar (c : Char) (r : List Char) : List Char → List Char
  | [] => []
  | a :: rest => (if a = c then r else [a]) ++ replaceAllChar c r rest

/-- The exporter's escaping (lines 168–173): backslash → double backslash,
then `=` → `\=`, then `;` → `\;`, applied in exactly this order. -/
def escapeKV (s : List Char) : List Char :=
  replaceAllChar ';' ['\\', ';']
    (replaceAllChar '=' ['\\', '=']
      (replaceAllChar '\\' ['\\', '\\'] s))

/-- What the three ordered substitutions do to one input character. -/
def escChar (a : Char) : List Char :=
  if a = '\\' then ['\\', '\\']
  else if a = '=' then ['\\', '=']
  else if a = ';' then ['\\', ';']
  else [a]

/-- Escaped-text well-formedness: every backslash opens a designed escape
pair (`\\`, `\=` or `\;`) and no bare `=` or `;` occurs outside such pairs. -/
def escapedWF : List Char → Bool
  | [] => true
  | '\\' :: [] => false
  | '\\' :: c :: rest => (c == '\\' || c == '=' || c == ';') && escapedWF rest
  | a :: rest => !(a == '=') && !(a == ';') && escapedWF rest

/-- Unfolding `escapedWF` at a designed escape pair. -/
theorem escapedWF_esc (c : Char) (t : List Char) :
    escapedWF ('\\' :: c :: t) =
      ((c == '\\' || c == '=' || c == ';') && escapedWF t) := rfl

/-- Unfolding `escapedWF` at an ordinary (non-backslash) character. -/
theorem escapedWF_ord (a : Char) (t : List Char) (h : ¬a = '\\') :
    escapedWF (a :: t) = (!(a == '=') && !(a == ';') && escapedWF t) := by
  match t with
  | [] => simp [escapedWF, h]
  | c :: t2 => simp [escapedWF, h]

/-- `replaceAllChar` distributes over append. -/
theorem replaceAllChar_append (c : Char) (r s t : List Char) :
    replaceAllChar c r (s ++ t) = replaceAllChar c r s ++ replaceAllChar c r t := by
  induction s with
  | nil => rfl
  | cons a s ih => simp [replaceAllChar, ih]

/-- The three ordered passes act character by character as `escChar`. -/
theorem escapeKV_cons (a : Char) (s : List Char) :
    escapeKV (a :: s) = escChar a ++ escapeKV s := by
  by_cases h1 : a = '\\'
  · subst h1
    simp [escapeKV, escChar, replaceAllChar, replaceAllChar_append]
  · by_cases h2 : a = '='
    · subst h2
      simp [escapeKV, escChar, replaceAllChar, replaceAllChar_append]
    · by_cases h3 : a = ';'
      · subst h3
        simp [escapeKV, escChar, replaceAllChar, replaceAllChar_append]
      · simp [escapeKV, escChar, replaceAllChar, replaceAllChar_append, h1, h2, h3]

/-- The escaped form of any string is well-formed: all specials are inside
designed escape pairs. -/
theorem escapedWF_escapeKV (s : List Char) : escapedWF (escapeKV s) = true := by
  induction s with
  | nil => rfl
  | cons a s ih =>
    rw [escapeKV_cons]
    by_cases h1 : a = '\\'
    · subst h1
      simpa [escChar, escapedWF_esc] using ih
    · by_cases h2 : a = '='
      · subst h2
        simpa [escChar, escapedWF_esc] using ih
      · by_cases h3 : a = ';'
        · subst h3
          simpa [escChar, escapedWF_esc] using ih
        · rw [show escChar a = [a] from by simp [escChar, h1, h2, h3]]
          rw [List.singleton_append, escapedWF_ord a _ h1]
          simp [h2, h3, ih]

/-- C6: the exporter escapes keys and values by the three ordered
substitutions (backslash first, then `=`, then `;`), so every escaped key
or value contains no unescaped `\`, `=` or `;` outside the designed escape
pairs; evaluated in particular on the key `a=b;c\d` and the value `x\y`. -/
theorem export_escaping (k v : List Char) :
    escapedWF (escapeKV k) = true ∧ escapedWF (escapeKV v) = true ∧
      escapeKV ("a=b;c\\d".toList) = "a\\=b\\;c\\\\d".toList ∧
      escapeKV ("x\\y".toList) = "x\\\\y".toList :=
  ⟨escapedWF_escapeKV k, escapedWF_escapeKV v, by decide, by decide⟩

/-- Decimal rendering of a natural number (stream `operator<<`). -/
def natStr (n : Nat) : List Char := Nat.toDigits 10 n

/-- Decimal rendering of an integer (`std::to_string` / stream output). -/
def intStr (n : Int) : List Char :=
  if n < 0 then '-' :: Nat.toDigits 10 n.natAbs else Nat.toDigits 10 n.toNat

/-- The per-map base filename of the export (line 117):
`exportDir + "e_" + minX + "_" + minY + "_" + z + "."`. -/
def filebase (exportDir : List Char) (m : Map) : List Char :=
  exportDir ++ "e_".toList ++ intStr m.Min_X ++ '_' :: intStr m.Min_Y ++
    '_' :: intStr m.Z_Level ++ ['.']

/-- The tiles-file header lines (lines 133–138). -/
def tilesHeader (m : Map) : List (List Char) :=
  ["V: 2".toList,
   "L: ".toList ++ intStr m.Z_Level,
   "X: ".toList ++ intStr m.Min_X,
   "Y: ".toList ++ intStr m.Min_Y,
   "W: ".toList ++ natStr m.Width,
   "H: ".toList ++ natStr m.Height]

/-- One tiles line (line 148): local coordinates, tile code, music id. -/
def tileLine (m : Map) (x y : Int) (f : CField) : List Char :=
  intStr (x - m.Min_X) ++ ';' :: intStr (y - m.Min_Y) ++
    ';' :: intStr f.tileCode ++ ';' :: intStr f.musicId

/-- One warps line (line 153): local coordinates and the warp target. -/
def warpLine (m : Map) (x y : Int) (t : Position) : List Char :=
  intStr (x - m.Min_X) ++ ';' :: intStr (y - m.Min_Y) ++
    ';' :: intStr t.x ++ ';' :: intStr t.y ++ ';' :: intStr t.z

/-- One items line (lines 160–175): local coordinates, item id and quality,
then one `;key=value` pair per data entry, key and value escaped. -/
def itemLine (m : Map) (x y : Int) (it : Item) : List Char :=
  intStr (x - m.Min_X) ++ ';' :: intStr (y - m.Min_Y) ++
    ';' :: intStr it.itemId ++ ';' :: intStr it.quality ++
    it.data.flatMap fun kv => ';' :: (escapeKV kv.1 ++ '=' :: escapeKV kv.2)

/-- The tiles lines of one map: outer loop `y`, inner loop `x`, one line per
populated cell. -/
def tilesLines (m : Map) : List (List Char) :=
  (intRangeIncl m.Min_Y m.Max_Y).flatMap fun y =>
    (intRangeIncl m.Min_X m.Max_X).filterMap fun x =>
      (m.getCField x y).map fun f => tileLine m x y f

/-- The warps lines of one map: one line per populated warp cell. -/
def warpsLines (m : Map) : List (List Char) :=
  (intRangeIncl m.Min_Y m.Max_Y).flatMap fun y =>
    (intRangeIncl m.Min_X m.Max_X).filterMap fun x =>
      (m.getCField x y).bind fun f => f.warp.map fun t => warpLine m x y t

/-- The items lines of one map: one line per exportable item per cell. -/
def itemsLines (m : Map) : List (List Char) :=
  (intRangeIncl m.Min_Y m.Max_Y).flatMap fun y =>
    (intRangeIncl m.Min_X m.Max_X).flatMap fun x =>
      match m.getCField x y with
      | none => []
      | some f => f.exportItems.map fun it => itemLine m x y it

/-- A text artifact produced by the exporter: a file name and its lines. -/
structure Artifact where
  name : List Char
  lines : List (List Char)

/-- The three artifacts the exporter writes for one map. -/
def mapArtifacts (exportDir : List Char) (m : Map) : List Artifact :=
  [⟨filebase exportDir m ++ "tiles.txt".toList, tilesHeader m ++ tilesLines m⟩,
   ⟨filebase exportDir m ++ "items.txt".toList, itemsLines m⟩,
   ⟨filebase exportDir m ++ "warps.txt".toList, warpsLines m⟩]

/-- Whether all three output streams for one map open successfully
(`fieldsf.good() && itemsf.good() && warpsf.good()`). -/
def allOpen (o : Bool × Bool × Bool) : Bool :=
  o.1 && o.2.1 && o.2.2

/-- The export iteration (lines 113–190): for each map in order, open the
three streams; on any failure return false at once, keeping what earlier
iterations already wrote; otherwise write the map's three artifacts and
continue.  `opens i` tells whether the i-th map's tiles/items/warps streams
open; the returned list is the on-disk state. -/
def exportLoop (exportDir : List Char) (opens : Nat → Bool × Bool × Bool) :
    List Map → Nat → Bool × List Artifact
  | [], _ => (true, [])
  | m :: rest, i =>
    if allOpen (opens i) then
      let r := exportLoop exportDir opens rest (i + 1)
      (r.1, mapArtifacts exportDir m ++ r.2)
    else (false, [])

/-- `WorldMap::exportTo`: runs the export iteration over the registered
maps from the first one. -/
def WorldMap.exportTo (wm : WorldMap) (exportDir : List Char)
    (opens : Nat → Bool × Bool × Bool) : Bool × List Artifact :=
  exportLoop exportDir opens wm.maps 0

/-- When every map's streams open, the loop writes everything and reports
success. -/
theorem exportLoop_all_open (exportDir : List Char)
    (opens : Nat → Bool × Bool × Bool) (ms : List Map) (i : Nat)
    (h : ∀ k, k < ms.length → allOpen (opens (i + k)) = true) :
    exportLoop exportDir opens ms i = (true, ms.flatMap (mapArtifacts exportDir)) := by
  induction ms generalizing i with
  | nil => rfl
  | cons m rest ih =>
    have h0 : allOpen (opens i) = true := by
      have := h 0 (by simp)
      simpa using this
    rw [exportLoop, if_pos h0, ih (i + 1) fun k hk => ?_]
    · rfl
    · have := h (k + 1) (by simpa using Nat.succ_lt_succ hk)
      rw [show i + 1 + k = i + (k + 1) from by omega]
      exact this

/-- When the first failing map is at offset `j`, the loop stops there with
false, and exactly the first `j` maps' artifacts are on disk. -/
theorem exportLoop_first_bad (exportDir : List Char)
    (opens : Nat → Bool × Bool × Bool) (ms : List Map) (i j : Nat)
    (hj : j < ms.length) (hbad : allOpen (opens (i + j)) = false)
    (hgood : ∀ k, k < j → allOpen (opens (i + k)) = true) :
    exportLoop exportDir opens ms i =
      (false, (ms.take j).flatMap (mapArtifacts exportDir)) := by
  induction ms generalizing i j with
  | nil => exact absurd hj (by simp)
  | cons m rest ih =>
    cases j with
    | zero =>
      rw [exportLoop, if_neg (by simpa using hbad)]
      rfl
    | succ j' =>
      have h0 : allOpen (opens i) = true := by
        have := hgood 0 (Nat.succ_pos j')
        simpa using this
      rw [exportLoop, if_pos h0, ih (i + 1) j' (by simpa using Nat.lt_of_succ_lt_succ hj)
        (by rw [show i + 1 + j' = i + (j' + 1) from by omega]; exact hbad)
        (fun k hk => by
          rw [show i + 1 + k = i + (k + 1) from by omega]
          exact hgood (k + 1) (Nat.succ_lt_succ hk))]
      rfl

/-- C7: if every map's three output streams open, the export returns true
having written all artifacts; if some map's stream fails to open — `j` being
the first such map — the export returns false immediately, no later map is
processed, and the artifacts of the maps before `j` remain on disk
untouched. -/
theorem exportTo_failure_policy (wm : WorldMap) (exportDir : List Char)
    (opens : Nat → Bool × Bool × Bool) :
    ((∀ k, k < wm.maps.length → allOpen (opens k) = true) →
        wm.exportTo exportDir opens =
          (true, wm.maps.flatMap (mapArtifacts exportDir))) ∧
      (∀ j, j < wm.maps.length → allOpen (opens j) = false →
        (∀ k, k < j → allOpen (opens k) = true) →
        wm.exportTo exportDir opens =
          (false, (wm.maps.take j).flatMap (mapArtifacts exportDir))) := by
  constructor
  · intro h
    exact exportLoop_all_open exportDir opens wm.maps 0 fun k hk => by
      simpa using h k hk
  · intro j hj hbad hgood
    exact exportLoop_first_bad exportDir opens wm.maps 0 j hj (by simpa using hbad)
      fun k hk => by simpa using hgood k hk

/-- C7 witness: on the three-map registry with the second map's items
stream failing to open, the export fails and only the first map's artifacts
are on disk. -/
theorem exportTo_failure_policy_witness :
    wm3.exportTo [] (fun i => if i == 1 then (true, false, true) else (true, true, true)) =
      (false, (wm3.maps.take 1).flatMap (mapArtifacts [])) :=
  (exportTo_failure_policy wm3 []
      (fun i => if i == 1 then (true, false, true) else (true, true, true))).2
    1 (by decide) (by decide) (fun k hk => by interval_cases k; decide)

/-- One value written by `ofstream::write` in `saveToDisk`: either an
`unsigned short` member (the count, `Width`, `Height`) or a coordinate
member (`Z_Level`, `Min_X`, `Min_Y`) in its native in-memory layout. -/
inductive BinField where
  | u16 (v : Nat)
  | coord (v : Int)
deriving DecidableEq

/-- The fixed-width record written for one map (lines 205–210):
z-level, minimum X, minimum Y, width, height, in this order. -/
def recordFields (m : Map) : List BinField :=
  [BinField.coord m.Z_Level, BinField.coord m.Min_X, BinField.coord m.Min_Y,
   BinField.u16 m.Width, BinField.u16 m.Height]

/-- `sprintf "%6d"`: decimal rendering right-justified in a minimum field
width of six characters, padded with spaces. -/
def pad6 (s : List Char) : List Char :=
  List.replicate (6 - s.length) ' ' ++ s

/-- The per-map save filename the code computes (line 212):
`sprintf("%s_%6d_%6d_%6d", prefix, Z_Level, Min_X, Min_Y)`. -/
def mapSaveName (pre : List Char) (m : Map) : List Char :=
  pre ++ '_' :: pad6 (intStr m.Z_Level) ++ '_' :: pad6 (intStr m.Min_X) ++
    '_' :: pad6 (intStr m.Min_Y)

/-- The filename as the spec words it: prefix, z-level, minimum X and
minimum Y joined by underscores, plain decimal rendering with no padding. -/
def specSaveName (pre : List Char) (m : Map) : List Char :=
  pre ++ '_' :: intStr m.Z_Level ++ '_' :: intStr m.Min_X ++
    '_' :: intStr m.Min_Y

/-- The save loop (lines 204–214): per map, write the record fields to the
index stream and pass the derived filename to the map's own save routine. -/
def saveLoop (pre : List Char) : List Map → List BinField × List (List Char)
  | [] => ([], [])
  | m :: rest =>
    let r := saveLoop pre rest
    (recordFields m ++ r.1, mapSaveName pre m :: r.2)

/-- What one `saveToDisk` call produces: the index file name, the sequence
of binary fields written to it, and the filenames handed to `Map::Save`. -/
structure SaveResult where
  indexFile : List Char
  stream : List BinField
  saveNames : List (List Char)
deriving DecidableEq

/-- `WorldMap::saveToDisk`: opens `{prefix}_initmaps`, writes
`unsigned short int size = maps.size()` (narrowing: modulo 2^16), then one
record per map in registration order, delegating each map's own content to
`Map::Save` under the derived name. -/
def WorldMap.saveToDisk (wm : WorldMap) (pre : List Char) : SaveResult :=
  let size : Nat := wm.maps.length % 65536
  let r := saveLoop pre wm.maps
  ⟨pre ++ "_initmaps".toList, BinField.u16 size :: r.1, r.2⟩

/-- The save loop is the concatenation of the per-map records along with
the list of derived filenames, in registration order. -/
theorem saveLoop_eq (pre : List Char) (ms : List Map) :
    saveLoop pre ms = ((ms.map recordFields).flatten, ms.map (mapSaveName pre)) := by
  induction ms with
  | nil => rfl
  | cons m rest ih => simp [saveLoop, ih]

/-- C8 (amended): `saveToDisk` writes `{prefix}_initmaps` as a 16-bit count
equal to the number of registered maps reduced modulo 2^16 — hence equal to
the map count whenever fewer than 65536 maps are registered — followed by
one fixed-width {z, minX, minY, width, height} record per registered map in
registration order. -/
theorem saveToDisk_layout (wm : WorldMap) (pre : List Char) :
    (wm.saveToDisk pre).indexFile = pre ++ "_initmaps".toList ∧
      (wm.saveToDisk pre).stream =
        BinField.u16 (wm.maps.length % 65536) ::
          (wm.maps.map recordFields).flatten ∧
      (wm.maps.length < 65536 →
        (wm.saveToDisk pre).stream =
          BinField.u16 wm.maps.length :: (wm.maps.map recordFields).flatten) ∧
      (wm.maps.map recordFields).length = wm.maps.length := by
  refine ⟨rfl, ?_, ?_, by simp⟩
  · dsimp only [WorldMap.saveToDisk]
    rw [saveLoop_eq]
  · intro hlt
    dsimp only [WorldMap.saveToDisk]
    rw [saveLoop_eq, Nat.mod_eq_of_lt hlt]

/-- A concrete registry of two maps, for the 2-map instance of the claim. -/
def wmTwo : WorldMap :=
  { maps := [mapA, mapB], world_map := fun _ => none, ageIndex := 0 }

/-- C8 witness: on the two-map registry the stream is a count of 2 followed
by the two records in registration order. -/
theorem saveToDisk_layout_witness :
    (wmTwo.saveToDisk ("p".toList)).stream =
      BinField.u16 2 :: (wmTwo.maps.map recordFields).flatten := by
  have h := (saveToDisk_layout wmTwo ("p".toList)).2.2.1 (by decide)
  simpa using h

/-- A registry holding 65536 distinct one-cell maps. -/
def bigWM : WorldMap :=
  { maps := (List.range 65536).map fun i =>
      { ref := i, Z_Level := 0, Min_X := 0, Max_X := 0, Min_Y := 0, Max_Y := 0,
        Width := 1, Height := 1, getCField := fun _ _ => none },
    world_map := fun _ => none, ageIndex := 0 }

/-- C8 counterexample: with 65536 registered maps the 16-bit count written
first is 0, not the number of registered maps — the narrowing conversion
`unsigned short int size = maps.size()` truncates modulo 2^16. -/
theorem saveToDisk_count_counterexample :
    bigWM.maps.length = 65536 ∧
      (bigWM.saveToDisk []).stream.head? = some (BinField.u16 0) := by
  have hlen : bigWM.maps.length = 65536 := by simp [bigWM]
  refine ⟨hlen, ?_⟩
  dsimp only [WorldMap.saveToDisk]
  rw [hlen, List.head?_cons]

/-- C9 (amended): for each registered map, `saveToDisk` computes the
filename `{prefix}_{z}_{minX}_{minY}` with each numeric field rendered as
by `sprintf "%6d"` — right-justified, space-padded to a minimum width of
six characters — and passes that filename to the map's own save routine. -/
theorem saveToDisk_filenames (wm : WorldMap) (pre : List Char) :
    (wm.saveToDisk pre).saveNames = wm.maps.map (mapSaveName pre) ∧
      ∀ m : Map, mapSaveName pre m =
        pre ++ '_' :: pad6 (intStr m.Z_Level) ++ '_' :: pad6 (intStr m.Min_X) ++
          '_' :: pad6 (intStr m.Min_Y) := by
  constructor
  · dsimp only [WorldMap.saveToDisk]
    rw [saveLoop_eq]
  · intro m
    rfl

/-- C9 counterexample: on the registry holding just `mapA` with prefix `p`,
the filename actually passed to the save routine is the space-padded
`p_     0_     0_     0`, not the spec's plain `p_0_0_0`. -/
theorem saveToDisk_filename_counterexample :
    ((WorldMap.empty.InsertMap (some mapA)).2.saveToDisk ("p".toList)).saveNames ≠
      [specSaveName ("p".toList) mapA] := by decide
